import Mathlib

/-!
Shallow embedding of the Flask upload service in `spotify.py`
(repository Spotify-Play-Count): upload validation, transient file
lifecycle, error-to-message mapping and rate limiting.

Filenames and file contents are modelled as `List Char` (Python `str`
restricted to the characters actually examined by the code).  The
filesystem is modelled as the set (list without duplicates) of paths that
currently exist.  The external enrichment routine
`main(filename, CLIENT_ID, CLIENT_SECRET)` and the possibility that
`os.remove` raises are supplied as oracles in an `Env`, since both are
external effects from the point of view of the request handler.
-/

namespace Spotify

/-- ASCII whitespace as recognised by Python `str.split()` with no
arguments (space, `\t`, `\n`, `\v`, `\f`, `\r` and the file/group/record/
unit separators `\x1c`-`\x1f`; the non-ASCII whitespace code points cannot
occur after the ASCII filtering step of `secure_filename`). -/
def isWs (c : Char) : Bool :=
  decide (c.toNat = 32 ∨ (9 ≤ c.toNat ∧ c.toNat ≤ 13) ∨ (28 ≤ c.toNat ∧ c.toNat ≤ 31))

/-- The character class kept by werkzeug's `_filename_ascii_strip_re`,
namely `A`-`Z`, `a`-`z`, `0`-`9`, `_` (95), `.` (46) and `-` (45). -/
def isSafeChar (c : Char) : Bool :=
  decide ((65 ≤ c.toNat ∧ c.toNat ≤ 90) ∨ (97 ≤ c.toNat ∧ c.toNat ≤ 122) ∨
    (48 ≤ c.toNat ∧ c.toNat ≤ 57) ∨ c.toNat = 95 ∨ c.toNat = 46 ∨ c.toNat = 45)

/-- Dot (46) or underscore (95): the characters removed from both ends by
the final `.strip("._")` of `secure_filename`. -/
def isDU (c : Char) : Bool :=
  decide (c.toNat = 46 ∨ c.toNat = 95)

/-- Python `str.lower` restricted to ASCII (exact on every ASCII string;
`str.lower` maps `A`-`Z` to `a`-`z` and is the identity on the other ASCII
characters). -/
def pyLower (c : Char) : Char :=
  if 65 ≤ c.toNat ∧ c.toNat ≤ 90 then Char.ofNat (c.toNat + 32) else c

/-- Python `filename.rsplit('.', 1)[1]` when `'.' in filename`: the part
of the string after its last dot. -/
def afterLastDot (l : List Char) : List Char :=
  (l.reverse.takeWhile (fun c => c ≠ '.')).reverse

/-- `ALLOWED_EXTENSIONS = {'csv'}` from `spotify.py`. -/
def ALLOWED_EXTENSIONS : List (List Char) := [['c', 's', 'v']]

/-- `allowed_file` from `spotify.py`:
`'.' in filename and filename.rsplit('.', 1)[1].lower() in ALLOWED_EXTENSIONS`. -/
def allowed_file (filename : List Char) : Bool :=
  filename.contains '.' && ALLOWED_EXTENSIONS.contains ((afterLastDot filename).map pyLower)

/-- First stage of werkzeug's `secure_filename`.  Modelled: the NFKD
normalisation followed by `encode("ascii", "ignore")` is modelled as
dropping the non-ASCII code points (exact on ASCII input; non-ASCII input
only ever contributes characters that the later `[^A-Za-z0-9_.-]` filter
would keep anyway, never a path separator). -/
def asciiKeep (l : List Char) : List Char :=
  l.filter (fun c => decide (c.toNat < 128))

/-- Second stage of `secure_filename`: each `os.sep` (`'/'` on the posix
hosts the app targets; `os.path.altsep` is `None` there) is replaced by a
space. -/
def sepToSpace (l : List Char) : List Char :=
  l.map (fun c => if c = '/' then ' ' else c)

/-- Helper for `splitWs`: accumulates the current word (reversed). -/
def splitWsAux : List Char → List Char → List (List Char)
  | [], acc => if acc = [] then [] else [acc.reverse]
  | c :: cs, acc =>
    if isWs c then
      if acc = [] then splitWsAux cs [] else acc.reverse :: splitWsAux cs []
    else
      splitWsAux cs (c :: acc)

/-- Python `str.split()` with no arguments: maximal runs of
non-whitespace characters, leading and trailing whitespace discarded. -/
def splitWs (l : List Char) : List (List Char) :=
  splitWsAux l []

/-- Python `"_".join(words)`. -/
def joinUnderscore : List (List Char) → List Char
  | [] => []
  | [w] => w
  | w :: ws => w ++ '_' :: joinUnderscore ws

/-- Python `str.strip("._")`: removes dots and underscores from both ends. -/
def stripDU (l : List Char) : List Char :=
  ((l.dropWhile isDU).reverse.dropWhile isDU).reverse

/-- werkzeug's `secure_filename` (the sanitiser `handle_uploaded_file`
applies to the client-supplied name): NFKD+ASCII restriction, separator
to space, whitespace runs joined with `_`, unsafe characters removed,
dots and underscores stripped from both ends.  The Windows device-name
special case is skipped (posix host). -/
def secure_filename (filename : List Char) : List Char :=
  stripDU ((joinUnderscore (splitWs (sepToSpace (asciiKeep filename)))).filter isSafeChar)

/-- A multipart file part: the client-supplied filename and the (opaque)
byte content. -/
structure FilePart where
  filename : List Char
  content : List Char
deriving DecidableEq

/-- HTTP method of the single route. -/
inductive Method where
  | GET
  | POST
deriving DecidableEq

/-- One HTTP request: method, the file part stored under the form field
name `file` (if any), and the client identity and arrival time (seconds)
used by the rate limiter. -/
structure Request where
  method : Method
  file : Option FilePart
  client : Nat
  time : Nat
deriving DecidableEq

/-- The opaque payload returned by the external enrichment routine. -/
abbrev ArtistsData := Nat

/-- Outcome of one invocation of the external call
`main(filename, CLIENT_ID, CLIENT_SECRET)`: a normal return, a raised
`ValueError`, or a raised exception of any other `Exception` subclass. -/
inductive MainOutcome where
  | ok (data : ArtistsData)
  | raiseValueError (msg : String)
  | raiseOther (msg : String)
deriving DecidableEq

/-- Oracles for the external effects: what `main` does when invoked on a
given stored filename and content, and whether `os.remove` of a given
path raises an `OSError`. -/
structure Env where
  mainOutcome : List Char → List Char → MainOutcome
  removeRaises : List Char → Bool

/-- The filesystem, as the set of currently existing paths. -/
abbrev FS := List (List Char)

/-- `csv_file.save(filename)`: after the write the path exists (an
existing file is overwritten in place, so the set of paths gains at most
one element). -/
def save (p : List Char) (fs : FS) : FS :=
  if p ∈ fs then fs else p :: fs

/-- A successful `os.remove(filename)`: the path no longer exists. -/
def removeFile (p : List Char) (fs : FS) : FS :=
  fs.erase p

def noFileMsg : String := "No file selected"

def badFormatMsg : String := "Invalid file format. Please upload a CSV file."

def genericErrorMsg : String := "An error occurred while processing the file. Please try again."

def osErrorMsg : String := "OSError raised by os.remove"

/-- How one call of `handle_uploaded_file` terminates: a returned value,
a raised `ValueError` (carrying its message), or a raised exception of
another `Exception` subclass. -/
inductive HandlerOutcome where
  | ok (data : ArtistsData)
  | valueError (msg : String)
  | otherError (msg : String)
deriving DecidableEq

/-- `handle_uploaded_file(request)` from `spotify.py`, threaded through
the filesystem:

* `request.files.get('file')` absent, or falsy (werkzeug `FileStorage` is
  falsy exactly when its filename is empty), or an empty filename: raises
  `ValueError('No file selected')`;
* `allowed_file` fails: raises `ValueError('Invalid file format. ...')`;
* otherwise the file is saved under `secure_filename(csv_file.filename)`,
  `main` is invoked, and on its normal return `os.remove` is called and
  the data returned.  There is no `try`/`finally`: an exception from
  `main` (or from `os.remove`) propagates with the file still on disk. -/
def handle_uploaded_file (env : Env) (req : Request) (fs : FS) : HandlerOutcome × FS :=
  match req.file with
  | none => (HandlerOutcome.valueError noFileMsg, fs)
  | some f =>
    if f.filename = [] then (HandlerOutcome.valueError noFileMsg, fs)
    else if allowed_file f.filename = false then (HandlerOutcome.valueError badFormatMsg, fs)
    else
      let fn := secure_filename f.filename
      let fs1 := save fn fs
      match env.mainOutcome fn f.content with
      | MainOutcome.raiseValueError m => (HandlerOutcome.valueError m, fs1)
      | MainOutcome.raiseOther m => (HandlerOutcome.otherError m, fs1)
      | MainOutcome.ok d =>
        if env.removeRaises fn then (HandlerOutcome.otherError osErrorMsg, fs1)
        else (HandlerOutcome.ok d, removeFile fn fs1)

/-- The HTTP response produced by one request to the route. -/
inductive Response where
  | resultsPage (data : ArtistsData)
  | redirectWithFlash (msg : String)
  | indexPage
  | rateLimited
deriving DecidableEq

/-- The view function `index` from `spotify.py`: on `GET` it renders the
form; on `POST` it calls `handle_uploaded_file` and renders the results,
except that a `ValueError` is flashed verbatim (`flash(str(e))`) and any
other exception is flashed as the generic message, both followed by a
redirect to the form. -/
def index (env : Env) (req : Request) (fs : FS) : Response × FS :=
  match req.method with
  | Method.GET => (Response.indexPage, fs)
  | Method.POST =>
    match handle_uploaded_file env req fs with
    | (HandlerOutcome.ok d, fs1) => (Response.resultsPage d, fs1)
    | (HandlerOutcome.valueError m, fs1) => (Response.redirectWithFlash m, fs1)
    | (HandlerOutcome.otherError _, fs1) => (Response.redirectWithFlash genericErrorMsg, fs1)

/-- Rate-limiter counters: client identity and window index to request
count, one map per window kind. -/
structure LimiterState where
  day : Nat → Nat → Nat
  hour : Nat → Nat → Nat
  minute : Nat → Nat → Nat

/-- The fresh limiter state of a newly started process. -/
def LimiterState.zero : LimiterState :=
  ⟨fun _ _ => 0, fun _ _ => 0, fun _ _ => 0⟩

/-- Increment one counter cell. -/
def bumpCount (f : Nat → Nat → Nat) (c w : Nat) : Nat → Nat → Nat :=
  fun c2 w2 => if c2 = c ∧ w2 = w then f c w + 1 else f c2 w2

/-- Modelled from the spec: the rate limiting performed by the
`flask_limiter` library (not part of the repository sources), configured
in `spotify.py` as `default_limits=["200 per day", "50 per hour"]` plus
the route decoration `limiter.limit("10 per minute")`.  Per the spec,
three budgets apply simultaneously over fixed windows keyed by client
identity; a request is denied if any budget is exhausted, a denial
consumes nothing, and an allowed request consumes one unit from every
window.  The gate runs before the view function, so budget is consumed
whether or not validation succeeds. -/
def checkAndConsume (st : LimiterState) (client t : Nat) : Bool × LimiterState :=
  let dW := t / 86400
  let hW := t / 3600
  let mW := t / 60
  if 200 ≤ st.day client dW ∨ 50 ≤ st.hour client hW ∨ 10 ≤ st.minute client mW then
    (false, st)
  else
    (true, ⟨bumpCount st.day client dW, bumpCount st.hour client hW,
            bumpCount st.minute client mW⟩)

/-- One request against the whole app: the rate-limit gate first (a
denial answers 429 without invoking the view), then the `index` view. -/
def app (env : Env) (st : LimiterState) (fs : FS) (req : Request) :
    Response × LimiterState × FS :=
  match checkAndConsume st req.client req.time with
  | (false, st1) => (Response.rateLimited, st1, fs)
  | (true, st1) =>
    let r := index env req fs
    (r.1, st1, r.2)

/-- A sequence of requests against the app, collecting the responses. -/
def appRun (env : Env) : LimiterState → FS → List Request → LimiterState × FS × List Response
  | st, fs, [] => (st, fs, [])
  | st, fs, r :: rs =>
    let x := app env st fs r
    let y := appRun env x.2.1 x.2.2 rs
    (y.1, y.2.1, x.1 :: y.2.2)

/-! Concrete inputs used by the theorems below. -/

def artistsCsvName : List Char := "artists.csv".toList

def artistsUpperName : List Char := "artists.CSV".toList

def notesTxtName : List Char := "notes.txt".toList

def dataCsvName : List Char := "data.csv".toList

def dotCsvName : List Char := ".csv".toList

def boomMsg : String := "boom"

def leakMsg : String := "connection refused by internal host"

/-- An environment in which `main` returns normally and `os.remove`
succeeds. -/
def envOk : Env :=
  ⟨fun _ _ => MainOutcome.ok 0, fun _ => false⟩

/-- An environment in which `main` raises a non-`ValueError` exception. -/
def envRaises : Env :=
  ⟨fun _ _ => MainOutcome.raiseOther boomMsg, fun _ => false⟩

/-- An environment in which `main` raises a `ValueError` carrying an
internal detail message. -/
def envRaisesValue : Env :=
  ⟨fun _ _ => MainOutcome.raiseValueError leakMsg, fun _ => false⟩

/-- An environment in which `main` succeeds but `os.remove` raises. -/
def envRemoveFails : Env :=
  ⟨fun _ _ => MainOutcome.ok 7, fun _ => true⟩

/-- A POST request uploading a file named `artists.csv`. -/
def reqArtists : Request :=
  ⟨Method.POST, some ⟨artistsCsvName, []⟩, 0, 0⟩

/-! Shared lemmas about the handler. -/

/-- `allowed_file` fails exactly on the purely lexical condition: no dot,
or the lower-cased part after the last dot is not `csv`. -/
lemma allowed_file_eq_false_iff (fn : List Char) :
    allowed_file fn = false ↔
      (fn.contains '.' = false ∨ (afterLastDot fn).map pyLower ≠ ['c', 's', 'v']) := by
  simp [allowed_file, ALLOWED_EXTENSIONS]
  tauto

/-- Unfolding of `handle_uploaded_file` on an upload that passes both
validation checks. -/
lemma handle_accepted (env : Env) (f : FilePart) (fs : FS) (cl t : Nat)
    (hfn : f.filename ≠ []) (hal : allowed_file f.filename = true) :
    handle_uploaded_file env ⟨Method.POST, some f, cl, t⟩ fs =
      (match env.mainOutcome (secure_filename f.filename) f.content with
       | MainOutcome.raiseValueError m =>
         (HandlerOutcome.valueError m, save (secure_filename f.filename) fs)
       | MainOutcome.raiseOther m =>
         (HandlerOutcome.otherError m, save (secure_filename f.filename) fs)
       | MainOutcome.ok d =>
         if env.removeRaises (secure_filename f.filename) then
           (HandlerOutcome.otherError osErrorMsg, save (secure_filename f.filename) fs)
         else
           (HandlerOutcome.ok d,
             removeFile (secure_filename f.filename) (save (secure_filename f.filename) fs))) := by
  simp [handle_uploaded_file, hfn, hal]

/-! Claim theorems. -/

/-- Claim C1 (code bug).  The claim says the temporary path is removed
before the request completes even when `main` raises.  The code has no
`try`/`finally` around the call, so on the accepted upload `artists.csv`
with `main` raising, the request completes (generic flash and redirect)
with the temporary file `artists.csv` still present on the filesystem:
the cleanup is skipped on the exception path. -/
theorem c1_temp_file_leaked_when_main_raises :
    index envRaises reqArtists [] =
      (Response.redirectWithFlash genericErrorMsg, [artistsCsvName]) := by
  decide

/-- Claim C2, counterexample.  When `main` raises a `ValueError`, the
handler's `except ValueError` branch flashes `str(e)` verbatim, so the
underlying exception detail reaches the client instead of the generic
message. -/
theorem c2_value_error_detail_reaches_client :
    (index envRaisesValue reqArtists []).1 = Response.redirectWithFlash leakMsg ∧
      leakMsg ≠ genericErrorMsg := by
  decide

/-- Claim C5 (code bug).  The claim says a deletion failure after a
successful enrichment does not overturn the successful result.  In the
code `os.remove` is on the straight-line path before `return`, so when it
raises the exception propagates, `index` flashes the generic error and
redirects: the user never receives the successful result (and the file
also remains on disk). -/
theorem c5_remove_failure_overturns_success :
    index envRemoveFails reqArtists [] =
      (Response.redirectWithFlash genericErrorMsg, [artistsCsvName]) ∧
      ∀ d : ArtistsData, (index envRemoveFails reqArtists []).1 ≠ Response.resultsPage d := by
  refine ⟨by decide, ?_⟩
  intro d h
  have h1 : (index envRemoveFails reqArtists []).1 = Response.redirectWithFlash genericErrorMsg := by
    decide
  rw [h1] at h
  exact Response.noConfusion h

/-- Claim C6 (code bug).  The storage path is `secure_filename` of the
client-supplied filename and nothing else — there is no per-request
component — so any two requests whose uploads carry the same original
filename store to the identical path; in particular two uploads named
`data.csv` both use the path `data.csv`. -/
theorem c6_storage_path_not_request_unique (f1 f2 : FilePart)
    (h : f1.filename = f2.filename) :
    secure_filename f1.filename = secure_filename f2.filename ∧
      secure_filename dataCsvName = dataCsvName := by
  exact ⟨by rw [h], by decide⟩

/-- Claim C6, witness: two distinct file parts both named `data.csv`
collide on the single path `data.csv`. -/
theorem c6_witness :
    secure_filename (FilePart.mk dataCsvName []).filename =
        secure_filename (FilePart.mk dataCsvName ['x']).filename ∧
      secure_filename dataCsvName = dataCsvName :=
  c6_storage_path_not_request_unique (FilePart.mk dataCsvName []) (FilePart.mk dataCsvName ['x']) rfl

/-- Claim C10.  A filename that is exactly `.csv` passes `allowed_file`
(`rsplit('.', 1)[1]` is `csv`), so the upload proceeds to storage and
enrichment: with `main` succeeding the handler returns the data (and the
file, stored as `csv` after `secure_filename` strips the leading dot, is
written and then removed). -/
theorem c10_dot_csv_accepted :
    allowed_file dotCsvName = true ∧
      handle_uploaded_file envOk ⟨Method.POST, some ⟨dotCsvName, []⟩, 0, 0⟩ [] =
        (HandlerOutcome.ok 0, []) := by
  decide

/-- Claim C4.  When the `file` part is absent or its filename is the
empty string, `handle_uploaded_file` raises `ValueError('No file
selected')` and the view flashes exactly that message and redirects. -/
theorem c4_no_file_selected (env : Env) (req : Request) (fs : FS)
    (hm : req.method = Method.POST)
    (h : req.file = none ∨ ∃ f : FilePart, req.file = some f ∧ f.filename = []) :
    handle_uploaded_file env req fs = (HandlerOutcome.valueError noFileMsg, fs) ∧
      index env req fs = (Response.redirectWithFlash noFileMsg, fs) := by
  obtain ⟨m, fl, cl, t⟩ := req
  cases m with
  | GET => exact Method.noConfusion hm
  | POST =>
    have hh : handle_uploaded_file env ⟨Method.POST, fl, cl, t⟩ fs =
        (HandlerOutcome.valueError noFileMsg, fs) := by
      rcases h with h | ⟨f, hf, hfn⟩
      · simp only at h
        simp [handle_uploaded_file, h]
      · simp only at hf
        simp [handle_uploaded_file, hf, hfn]
    exact ⟨hh, by simp [index, hh]⟩

/-- Claim C4, witness: a POST with no file part at all is answered with
the `No file selected` flash. -/
theorem c4_witness :
    handle_uploaded_file envOk ⟨Method.POST, none, 0, 0⟩ [] =
        (HandlerOutcome.valueError noFileMsg, []) ∧
      index envOk ⟨Method.POST, none, 0, 0⟩ [] =
        (Response.redirectWithFlash noFileMsg, []) :=
  c4_no_file_selected envOk ⟨Method.POST, none, 0, 0⟩ [] rfl (Or.inl rfl)

/-- Claim C9.  Every validation failure (missing part, empty filename,
disallowed extension) happens before `csv_file.save`, so the handler
raises with the filesystem unchanged. -/
theorem c9_validation_failure_leaves_fs_unchanged (env : Env) (req : Request) (fs : FS)
    (h : req.file = none ∨ ∃ f : FilePart, req.file = some f ∧
          (f.filename = [] ∨ allowed_file f.filename = false)) :
    (handle_uploaded_file env req fs).2 = fs := by
  rcases h with h | ⟨f, hf, hc⟩
  · simp [handle_uploaded_file, h]
  · rcases hc with hc | hc
    · simp [handle_uploaded_file, hf, hc]
    · by_cases hfn : f.filename = []
      · simp [handle_uploaded_file, hf, hfn]
      · simp [handle_uploaded_file, hf, hfn, hc]

/-- Claim C9, witness: the rejected upload `notes.txt` leaves the empty
filesystem empty. -/
theorem c9_witness :
    (handle_uploaded_file envOk ⟨Method.POST, some ⟨notesTxtName, []⟩, 0, 0⟩ []).2 = [] :=
  c9_validation_failure_leaves_fs_unchanged envOk ⟨Method.POST, some ⟨notesTxtName, []⟩, 0, 0⟩ []
    (Or.inr ⟨⟨notesTxtName, []⟩, rfl, Or.inr (by decide)⟩)

/-- Claim C2 as amended.  On an accepted upload, an exception from `main`
that is not a `ValueError` is mapped to the single generic message; but a
`ValueError` raised by `main` is caught by the `except ValueError` branch
and its message is flashed verbatim to the client. -/
theorem c2_amended_error_mapping (env : Env) (f : FilePart) (fs : FS) (cl t : Nat) (m : String)
    (hfn : f.filename ≠ []) (hal : allowed_file f.filename = true) :
    (env.mainOutcome (secure_filename f.filename) f.content = MainOutcome.raiseOther m →
      (index env ⟨Method.POST, some f, cl, t⟩ fs).1 =
        Response.redirectWithFlash genericErrorMsg) ∧
    (env.mainOutcome (secure_filename f.filename) f.content = MainOutcome.raiseValueError m →
      (index env ⟨Method.POST, some f, cl, t⟩ fs).1 = Response.redirectWithFlash m) := by
  constructor <;> intro hmo <;>
    simp [index, handle_accepted env f fs cl t hfn hal, hmo]

/-- Claim C2 as amended, witness: with `main` raising a generic exception
on the accepted upload `artists.csv`, the flash is the generic message. -/
theorem c2_amended_witness :
    (envRaises.mainOutcome (secure_filename artistsCsvName) [] = MainOutcome.raiseOther boomMsg →
      (index envRaises ⟨Method.POST, some ⟨artistsCsvName, []⟩, 0, 0⟩ []).1 =
        Response.redirectWithFlash genericErrorMsg) ∧
    (envRaises.mainOutcome (secure_filename artistsCsvName) [] =
        MainOutcome.raiseValueError boomMsg →
      (index envRaises ⟨Method.POST, some ⟨artistsCsvName, []⟩, 0, 0⟩ []).1 =
        Response.redirectWithFlash boomMsg) :=
  c2_amended_error_mapping envRaises ⟨artistsCsvName, []⟩ [] 0 0 boomMsg (by decide) (by decide)

/-- Claim C3.  Provided the external call never itself raises a
`ValueError` carrying exactly the validation message (which would be
indistinguishable in the handler's outcome), an upload with a non-empty
filename fails with the `Invalid file format` error precisely when the
filename has no dot or the lower-cased segment after its last dot is not
`csv`; in particular `artists.CSV` is accepted and `notes.txt` is not. -/
theorem c3_extension_check_lexical (env : Env) (f : FilePart) (fs : FS) (cl t : Nat)
    (hfn : f.filename ≠ [])
    (henv : ∀ fn c, env.mainOutcome fn c ≠ MainOutcome.raiseValueError badFormatMsg) :
    ((handle_uploaded_file env ⟨Method.POST, some f, cl, t⟩ fs).1 =
        HandlerOutcome.valueError badFormatMsg ↔
      (f.filename.contains '.' = false ∨
        (afterLastDot f.filename).map pyLower ≠ ['c', 's', 'v'])) ∧
    allowed_file artistsUpperName = true ∧ allowed_file notesTxtName = false := by
  refine ⟨?_, by decide, by decide⟩
  by_cases hal : allowed_file f.filename = false
  · have hres : handle_uploaded_file env ⟨Method.POST, some f, cl, t⟩ fs =
        (HandlerOutcome.valueError badFormatMsg, fs) := by
      simp [handle_uploaded_file, hfn, hal]
    rw [hres]
    simpa using (allowed_file_eq_false_iff f.filename).mp hal
  · have hal2 : allowed_file f.filename = true := by
      cases hA : allowed_file f.filename
      · exact absurd hA hal
      · rfl
    have hrhs : ¬(f.filename.contains '.' = false ∨
        (afterLastDot f.filename).map pyLower ≠ ['c', 's', 'v']) :=
      fun hr => hal ((allowed_file_eq_false_iff f.filename).mpr hr)
    rw [handle_accepted env f fs cl t hfn hal2]
    constructor
    · intro hres
      exfalso
      cases hmo : env.mainOutcome (secure_filename f.filename) f.content with
      | ok d =>
        rw [hmo] at hres
        by_cases hr : env.removeRaises (secure_filename f.filename) = true
        · simp [hr, osErrorMsg] at hres
        · simp [hr] at hres
      | raiseValueError m =>
        rw [hmo] at hres
        simp at hres
        exact henv (secure_filename f.filename) f.content (by rw [hmo, hres])
      | raiseOther m =>
        rw [hmo] at hres
        simp at hres
    · intro hr
      exact absurd hr hrhs

/-- Claim C3, witness: the accepted upload `artists.csv` under a benign
environment instantiates the equivalence (both sides false) and the two
concrete scenarios. -/
theorem c3_witness :
    ((handle_uploaded_file envOk ⟨Method.POST, some ⟨artistsCsvName, []⟩, 0, 0⟩ []).1 =
        HandlerOutcome.valueError badFormatMsg ↔
      (artistsCsvName.contains '.' = false ∨
        (afterLastDot artistsCsvName).map pyLower ≠ ['c', 's', 'v'])) ∧
    allowed_file artistsUpperName = true ∧ allowed_file notesTxtName = false :=
  c3_extension_check_lexical envOk ⟨artistsCsvName, []⟩ [] 0 0 (by decide)
    (fun fn c h => MainOutcome.noConfusion h)

/-! Lemmas for claim C7: every character surviving `secure_filename` lies
in the safe class, and an accepted filename always leaves at least one
character. -/

lemma splitWsAux_nil (acc : List Char) :
    splitWsAux [] acc = if acc = [] then [] else [acc.reverse] := rfl

lemma splitWsAux_cons (d : Char) (ds acc : List Char) :
    splitWsAux (d :: ds) acc =
      if isWs d then
        (if acc = [] then splitWsAux ds [] else acc.reverse :: splitWsAux ds [])
      else splitWsAux ds (d :: acc) := rfl

lemma mem_of_mem_dropWhile {p : Char → Bool} {l : List Char} {c : Char}
    (h : c ∈ l.dropWhile p) : c ∈ l :=
  (List.dropWhile_sublist p).subset h

lemma mem_dropWhile_of_mem {p : Char → Bool} {l : List Char} {c : Char}
    (h : c ∈ l) (hp : p c = false) : c ∈ l.dropWhile p := by
  induction l with
  | nil => cases h
  | cons d ds ih =>
    rw [List.dropWhile_cons]
    by_cases hd : p d = true
    · rw [if_pos hd]
      apply ih
      rcases List.mem_cons.mp h with rfl | h2
      · rw [hp] at hd; exact Bool.noConfusion hd
      · exact h2
    · rw [if_neg hd]
      exact h

lemma mem_stripDU_of {l : List Char} {c : Char} (h : c ∈ l) (hc : isDU c = false) :
    c ∈ stripDU l := by
  unfold stripDU
  rw [List.mem_reverse]
  refine mem_dropWhile_of_mem ?_ hc
  rw [List.mem_reverse]
  exact mem_dropWhile_of_mem h hc

lemma mem_of_mem_stripDU {l : List Char} {c : Char} (h : c ∈ stripDU l) : c ∈ l := by
  unfold stripDU at h
  rw [List.mem_reverse] at h
  have h1 := mem_of_mem_dropWhile h
  rw [List.mem_reverse] at h1
  exact mem_of_mem_dropWhile h1

lemma exists_word_splitWsAux :
    ∀ (l acc : List Char) (c : Char),
      ((c ∈ l ∧ isWs c = false) ∨ c ∈ acc) →
      ∃ w, w ∈ splitWsAux l acc ∧ c ∈ w := by
  intro l
  induction l with
  | nil =>
    intro acc c h
    rcases h with ⟨h, _⟩ | h
    · cases h
    · have hacc : acc ≠ [] := List.ne_nil_of_mem h
      refine ⟨acc.reverse, ?_, ?_⟩
      · rw [splitWsAux_nil, if_neg hacc]
        exact List.mem_singleton.mpr rfl
      · rw [List.mem_reverse]
        exact h
  | cons d ds ih =>
    intro acc c h
    rw [splitWsAux_cons]
    by_cases hd : isWs d = true
    · rw [if_pos hd]
      rcases h with ⟨hmem, hnws⟩ | hacc
      · have hds : c ∈ ds := by
          rcases List.mem_cons.mp hmem with rfl | h2
          · rw [hnws] at hd; exact Bool.noConfusion hd
          · exact h2
        obtain ⟨w, hw, hcw⟩ := ih [] c (Or.inl ⟨hds, hnws⟩)
        by_cases ha : acc = []
        · rw [if_pos ha]
          exact ⟨w, hw, hcw⟩
        · rw [if_neg ha]
          exact ⟨w, List.mem_cons_of_mem _ hw, hcw⟩
      · have ha : acc ≠ [] := List.ne_nil_of_mem hacc
        rw [if_neg ha]
        refine ⟨acc.reverse, List.mem_cons_self _ _, ?_⟩
        rw [List.mem_reverse]
        exact hacc
    · rw [if_neg hd]
      rcases h with ⟨hmem, hnws⟩ | hacc
      · rcases List.mem_cons.mp hmem with rfl | h2
        · exact ih (c :: acc) c (Or.inr (List.mem_cons_self c acc))
        · exact ih (d :: acc) c (Or.inl ⟨h2, hnws⟩)
      · exact ih (d :: acc) c (Or.inr (List.mem_cons_of_mem d hacc))

lemma mem_joinUnderscore :
    ∀ (ws : List (List Char)) (w : List Char), w ∈ ws → ∀ c, c ∈ w →
      c ∈ joinUnderscore ws := by
  intro ws
  induction ws with
  | nil => intro w hw; cases hw
  | cons w1 rest ih =>
    intro w hw c hc
    cases rest with
    | nil =>
      rcases List.mem_cons.mp hw with rfl | h2
      · simpa [joinUnderscore] using hc
      · cases h2
    | cons w2 rs =>
      rcases List.mem_cons.mp hw with rfl | h2
      · exact List.mem_append_left _ hc
      · exact List.mem_append_right _ (List.mem_cons_of_mem _ (ih w h2 c hc))

/-- A character that every stage of `secure_filename` preserves. -/
def keptChar (c : Char) : Prop :=
  c.toNat < 128 ∧ isWs c = false ∧ c ≠ '/' ∧ isSafeChar c = true ∧ isDU c = false

lemma keptChar_of_letter (c : Char)
    (h : (65 ≤ c.toNat ∧ c.toNat ≤ 90) ∨ (97 ≤ c.toNat ∧ c.toNat ≤ 122)) :
    keptChar c := by
  have h47 : ('/').toNat = 47 := rfl
  refine ⟨by omega, ?_, ?_, ?_, ?_⟩
  · simp only [isWs, decide_eq_false_iff_not]
    omega
  · intro hc
    rw [hc, h47] at h
    omega
  · simp only [isSafeChar, decide_eq_true_eq]
    tauto
  · simp only [isDU, decide_eq_false_iff_not]
    omega

lemma pyLower_letter (c x : Char) (hx : 97 ≤ x.toNat ∧ x.toNat ≤ 122)
    (h : pyLower c = x) :
    (65 ≤ c.toNat ∧ c.toNat ≤ 90) ∨ (97 ≤ c.toNat ∧ c.toNat ≤ 122) := by
  by_cases hc : 65 ≤ c.toNat ∧ c.toNat ≤ 90
  · exact Or.inl hc
  · unfold pyLower at h
    rw [if_neg hc] at h
    right
    rw [h]
    exact hx

lemma mem_secure_filename_of_kept (f : List Char) (c : Char) (hc : c ∈ f)
    (hk : keptChar c) : c ∈ secure_filename f := by
  obtain ⟨h128, hws, hsl, hsafe, hdu⟩ := hk
  have h1 : c ∈ asciiKeep f := by
    rw [asciiKeep, List.mem_filter]
    exact ⟨hc, decide_eq_true h128⟩
  have h2 : c ∈ sepToSpace (asciiKeep f) := by
    rw [sepToSpace]
    exact List.mem_map.mpr ⟨c, h1, if_neg hsl⟩
  obtain ⟨w, hw, hcw⟩ := exists_word_splitWsAux (sepToSpace (asciiKeep f)) [] c (Or.inl ⟨h2, hws⟩)
  have h4 : c ∈ joinUnderscore (splitWs (sepToSpace (asciiKeep f))) :=
    mem_joinUnderscore _ w hw c hcw
  have h5 : c ∈ (joinUnderscore (splitWs (sepToSpace (asciiKeep f)))).filter isSafeChar :=
    List.mem_filter.mpr ⟨h4, hsafe⟩
  show c ∈ stripDU ((joinUnderscore (splitWs (sepToSpace (asciiKeep f)))).filter isSafeChar)
  exact mem_stripDU_of h5 hdu

lemma isSafeChar_of_mem_secure_filename (f : List Char) (c : Char)
    (h : c ∈ secure_filename f) : isSafeChar c = true := by
  unfold secure_filename at h
  exact (List.mem_filter.mp (mem_of_mem_stripDU h)).2

lemma exists_kept_of_allowed (f : List Char) (hal : allowed_file f = true) :
    ∃ c ∈ f, keptChar c := by
  have hmap : (afterLastDot f).map pyLower = ['c', 's', 'v'] := by
    by_contra hne
    have hfalse := (allowed_file_eq_false_iff f).mpr (Or.inr hne)
    rw [hal] at hfalse
    exact Bool.noConfusion hfalse
  cases hA : afterLastDot f with
  | nil =>
    rw [hA] at hmap
    exact absurd hmap (by simp)
  | cons a rest =>
    rw [hA] at hmap
    simp only [List.map_cons, List.cons.injEq] at hmap
    have hlet : (65 ≤ a.toNat ∧ a.toNat ≤ 90) ∨ (97 ≤ a.toNat ∧ a.toNat ≤ 122) :=
      pyLower_letter a 'c' (by decide) hmap.1
    refine ⟨a, ?_, keptChar_of_letter a hlet⟩
    have hmem : a ∈ afterLastDot f := by
      rw [hA]
      exact List.mem_cons_self a rest
    unfold afterLastDot at hmem
    rw [List.mem_reverse] at hmem
    have h2 := (List.takeWhile_sublist _).subset hmem
    rw [List.mem_reverse] at h2
    exact h2

/-- Claim C7.  For every upload that passes `allowed_file`, the storage
path `secure_filename(filename)` is non-empty and consists only of
characters from `A`-`Z`, `a`-`z`, `0`-`9`, `_`, `.`, `-`; in particular
it contains no path separator, so it names no directory component. -/
theorem c7_storage_path_safe (f : List Char) (hal : allowed_file f = true) :
    secure_filename f ≠ [] ∧
      (∀ c ∈ secure_filename f, isSafeChar c = true) ∧
      '/' ∉ secure_filename f := by
  obtain ⟨a, haf, hk⟩ := exists_kept_of_allowed f hal
  refine ⟨List.ne_nil_of_mem (mem_secure_filename_of_kept f a haf hk), ?_, ?_⟩
  · intro c hc
    exact isSafeChar_of_mem_secure_filename f c hc
  · intro hsl
    have hbad := isSafeChar_of_mem_secure_filename f '/' hsl
    have hgood : isSafeChar '/' = false := by decide
    rw [hgood] at hbad
    exact Bool.noConfusion hbad

/-- Claim C7, witness: the accepted filename `artists.csv` yields a
non-empty, separator-free storage path. -/
theorem c7_witness :
    allowed_file artistsCsvName = true ∧
      (secure_filename artistsCsvName ≠ [] ∧
        (∀ c ∈ secure_filename artistsCsvName, isSafeChar c = true) ∧
        '/' ∉ secure_filename artistsCsvName) :=
  ⟨by decide, c7_storage_path_safe artistsCsvName (by decide)⟩

/-! Lemmas for claim C8. -/

lemma div3600_of_div60 {a b : Nat} (h : a / 60 = b / 60) : a / 3600 = b / 3600 := by
  have e : (3600 : Nat) = 60 * 60 := by norm_num
  rw [e, ← Nat.div_div_eq_div_mul, ← Nat.div_div_eq_div_mul, h]

lemma div86400_of_div60 {a b : Nat} (h : a / 60 = b / 60) : a / 86400 = b / 86400 := by
  have e : (86400 : Nat) = 60 * 1440 := by norm_num
  rw [e, ← Nat.div_div_eq_div_mul, ← Nat.div_div_eq_div_mul, h]

/-- The view itself never produces the 429 outcome; only the gate does. -/
lemma index_ne_rateLimited (env : Env) (req : Request) (fs : FS) :
    (index env req fs).1 ≠ Response.rateLimited := by
  obtain ⟨m, fl, cl, t⟩ := req
  cases m with
  | GET => simp [index]
  | POST =>
    rcases hh : handle_uploaded_file env ⟨Method.POST, fl, cl, t⟩ fs with ⟨o, fs1⟩
    cases o <;> simp [index, hh]

/-- Processing same-minute requests of one client from a state whose
three counters stand at `k` raises all three counters by the number of
requests, no request being denied, as long as the total stays within the
per-minute budget. -/
lemma appRun_saturates (env : Env) (client t0 : Nat) :
    ∀ (reqs : List Request) (st : LimiterState) (fs : FS) (k : Nat),
      (∀ r ∈ reqs, r.client = client ∧ r.time / 60 = t0 / 60) →
      k + reqs.length ≤ 10 →
      st.minute client (t0 / 60) = k →
      st.hour client (t0 / 3600) = k →
      st.day client (t0 / 86400) = k →
      ((appRun env st fs reqs).1.minute client (t0 / 60) = k + reqs.length ∧
       (appRun env st fs reqs).1.hour client (t0 / 3600) = k + reqs.length ∧
       (appRun env st fs reqs).1.day client (t0 / 86400) = k + reqs.length) ∧
      ∀ resp ∈ (appRun env st fs reqs).2.2, resp ≠ Response.rateLimited := by
  intro reqs
  induction reqs with
  | nil =>
    intro st fs k hsame hk hm hh hd
    refine ⟨⟨?_, ?_, ?_⟩, ?_⟩
    · simpa [appRun] using hm
    · simpa [appRun] using hh
    · simpa [appRun] using hd
    · simp [appRun]
  | cons r rs ih =>
    intro st fs k hsame hk hm hh hd
    obtain ⟨hc, ht⟩ := hsame r (List.mem_cons_self r rs)
    have ht2 : r.time / 3600 = t0 / 3600 := div3600_of_div60 ht
    have ht3 : r.time / 86400 = t0 / 86400 := div86400_of_div60 ht
    have hcond : ¬(200 ≤ st.day client (t0 / 86400) ∨ 50 ≤ st.hour client (t0 / 3600) ∨
        10 ≤ st.minute client (t0 / 60)) := by
      rw [hm, hh, hd]
      simp only [List.length_cons] at hk
      omega
    have hcheck : checkAndConsume st r.client r.time =
        (true, ⟨bumpCount st.day client (t0 / 86400), bumpCount st.hour client (t0 / 3600),
                bumpCount st.minute client (t0 / 60)⟩) := by
      simp only [checkAndConsume]
      rw [hc, ht, ht2, ht3, if_neg hcond]
    have happ : app env st fs r =
        ((index env r fs).1,
         ⟨bumpCount st.day client (t0 / 86400), bumpCount st.hour client (t0 / 3600),
          bumpCount st.minute client (t0 / 60)⟩,
         (index env r fs).2) := by
      unfold app
      rw [hcheck]
    simp only [appRun]
    rw [happ]
    dsimp only
    have hsame2 : ∀ x ∈ rs, x.client = client ∧ x.time / 60 = t0 / 60 :=
      fun x hx => hsame x (List.mem_cons_of_mem r hx)
    have hk2 : (k + 1) + rs.length ≤ 10 := by
      simp only [List.length_cons] at hk
      omega
    obtain ⟨⟨him, hihr, hid⟩, hresp⟩ :=
      ih ⟨bumpCount st.day client (t0 / 86400), bumpCount st.hour client (t0 / 3600),
          bumpCount st.minute client (t0 / 60)⟩ (index env r fs).2 (k + 1) hsame2 hk2
        (by simp [bumpCount, hm]) (by simp [bumpCount, hh]) (by simp [bumpCount, hd])
    refine ⟨⟨?_, ?_, ?_⟩, ?_⟩
    · rw [him]
      simp only [List.length_cons]
      omega
    · rw [hihr]
      simp only [List.length_cons]
      omega
    · rw [hid]
      simp only [List.length_cons]
      omega
    · intro resp hr
      rcases List.mem_cons.mp hr with rfl | h2
      · exact index_ne_rateLimited env r fs
      · exact hresp resp h2

/-- Claim C8.  The route is governed by the budgets 200 per day, 50 per
hour and 10 per minute, consumed at the gate before validation: whatever
the ten requests contain (valid uploads or not), after ten requests of
one client within one minute window the eleventh request in the same
window is denied with the 429 rate-limit outcome, while none of the ten
was denied. -/
theorem c8_rate_limit_gate (env : Env) (reqs : List Request) (client t0 : Nat)
    (r11 : Request) (fs0 : FS)
    (hlen : reqs.length = 10)
    (hsame : ∀ r ∈ reqs, r.client = client ∧ r.time / 60 = t0 / 60)
    (h11c : r11.client = client) (h11t : r11.time / 60 = t0 / 60) :
    (∀ resp ∈ (appRun env LimiterState.zero fs0 reqs).2.2, resp ≠ Response.rateLimited) ∧
      (app env (appRun env LimiterState.zero fs0 reqs).1
          (appRun env LimiterState.zero fs0 reqs).2.1 r11).1 = Response.rateLimited := by
  obtain ⟨⟨hm, hh, hd⟩, hresp⟩ :=
    appRun_saturates env client t0 reqs LimiterState.zero fs0 0 hsame (by omega) rfl rfl rfl
  refine ⟨hresp, ?_⟩
  have ht2 : r11.time / 3600 = t0 / 3600 := div3600_of_div60 h11t
  have ht3 : r11.time / 86400 = t0 / 86400 := div86400_of_div60 h11t
  have hcond : 200 ≤ (appRun env LimiterState.zero fs0 reqs).1.day client (t0 / 86400) ∨
      50 ≤ (appRun env LimiterState.zero fs0 reqs).1.hour client (t0 / 3600) ∨
      10 ≤ (appRun env LimiterState.zero fs0 reqs).1.minute client (t0 / 60) := by
    refine Or.inr (Or.inr ?_)
    rw [hm, hlen]
  have hcheck : checkAndConsume (appRun env LimiterState.zero fs0 reqs).1 r11.client r11.time =
      (false, (appRun env LimiterState.zero fs0 reqs).1) := by
    simp only [checkAndConsume]
    rw [h11c, h11t, ht2, ht3, if_pos hcond]
  unfold app
  rw [hcheck]

/-- A bare POST request with no file attached, used to exercise the gate. -/
def reqPlain : Request := ⟨Method.POST, none, 0, 0⟩

/-- Claim C8, witness: ten immediate invalid POSTs of one client are all
admitted by the gate (and fail validation), and the eleventh in the same
minute is denied with 429. -/
theorem c8_witness :
    (∀ resp ∈ (appRun envOk LimiterState.zero [] (List.replicate 10 reqPlain)).2.2,
        resp ≠ Response.rateLimited) ∧
      (app envOk (appRun envOk LimiterState.zero [] (List.replicate 10 reqPlain)).1
          (appRun envOk LimiterState.zero [] (List.replicate 10 reqPlain)).2.1 reqPlain).1 =
        Response.rateLimited :=
  c8_rate_limit_gate envOk (List.replicate 10 reqPlain) 0 0 reqPlain []
    (by decide) (by decide) rfl rfl

end Spotify
